import Mathlib

/-!
Verification development for the serial telemetry plotter (`UI/pc_plotter.py`).

The development shallowly embeds the data pipeline of the program:

* the line protocol decoder `SerialReader.parse_data` (a Python regex search
  over a fixed ten-field pattern followed by four `float` conversions),
* the circular sample store mutated by `PlotterApp.receive_data` (real
  insertions) and by the dummy-point loop of `PlotterApp.update_plots`
  (synthetic insertions), together with the snapshot/reorder step and the
  dirty-flag discipline of the render tick,
* the reader loop `SerialReader.run` / `SerialReader.stop`.

Modelling conventions: wall-clock instants and measured values are embedded as
exact rationals (the Python code uses binary floating point; all quantities in
the claims are decimal literals, which the rational embedding represents
exactly).  Character classes of the regex are modelled at their ASCII meaning
(the wire protocol is ASCII).  The Python `while` loop of the gap synthesizer
is embedded as a fuel-indexed recursion; the fuel passed by `update_plots` is
provably sufficient for the loop to run to completion, and the loop-exit
condition is part of the proved characterization.
-/

/-! ## Configuration constants (lines 15-17 of the source) -/

def MAX_POINTS : ℕ := 200

def GUI_UPDATE_INTERVAL_MS : ℕ := 50

def DATA_COLLECTION_INTERVAL_MS : ℕ := 100

/-- Nominal inter-sample period in seconds, `DATA_COLLECTION_INTERVAL_MS / 1000.0`
(line 266 of the source). -/
def interval_s : ℚ := (DATA_COLLECTION_INTERVAL_MS : ℚ) / 1000

/-! ## Character classes of the regex (ASCII semantics)

The pattern of `parse_data` (line 94) uses the classes `[\d.-]`, `\w` and
`[\w\s:]`. -/

/-- Class `[\d.-]` of the numeric groups. -/
def classNum (c : Char) : Bool := c.isDigit || c = '.' || c = '-'

/-- Class `\w` of the token groups (ASCII word characters). -/
def classWord (c : Char) : Bool := c.isAlphanum || c = '_'

/-- Class `\s` (ASCII whitespace characters). -/
def classSpace (c : Char) : Bool :=
  c = ' ' || c = '\t' || c = '\n' || c = '\r' || c = '\x0b' || c = '\x0c'

/-- Class `[\w\s:]` of the `ESTADO` group. -/
def classEstado (c : Char) : Bool := classWord c || classSpace c || c = ':'

/-! ## Python float conversion

`float(s)` on a string drawn from the class `[\d.-]`: an optional leading
minus sign, digits with at most one decimal point and at least one digit.
The numeric value is represented exactly as a rational. -/

/-- Numeric value of a digit string. -/
def digitsToNat (ds : List Char) : ℕ :=
  ds.foldl (fun a c => 10 * a + (c.toNat - 48)) 0

/-- Unsigned part of Python float syntax: digits with at most one decimal
point and at least one digit. -/
def pyFloatCore (s1 : List Char) : Option ℚ :=
  let ip := s1.takeWhile Char.isDigit
  let rest := s1.drop ip.length
  if rest.isEmpty then
    if ip.isEmpty then none else some (digitsToNat ip : ℚ)
  else if rest.head? = some '.' then
    let fr := rest.tail
    let fp := fr.takeWhile Char.isDigit
    if (fr.drop fp.length).isEmpty then
      if ip.isEmpty && fp.isEmpty then none
      else some ((digitsToNat ip : ℚ) + (digitsToNat fp : ℚ) / (10 : ℚ) ^ fp.length)
    else none
  else none

/-- Embedding of Python `float(s)` restricted to strings over `[\d.-]` (the
only strings the parser ever converts): an optional leading minus sign
followed by the unsigned part.  `some` of the exact value on success, `none`
when `float` would raise `ValueError`. -/
def pyFloat? (s : List Char) : Option ℚ :=
  if s.head? = some '-' then (pyFloatCore s.tail).map (fun m => -m)
  else pyFloatCore s

/-! ## Regex pattern and matcher

The pattern of line 94 is a concatenation of literal pieces and greedy
one-or-more capture groups over a character class.  Since no class of the
pattern contains the comma that begins every following literal piece, the
greedy backtracking semantics of Python `re` coincides with maximal-munch:
each group can only match the maximal run of its class.  The matcher below
implements this; `reSearch` tries every start position left to right, exactly
as `re.search` does. -/

/-- One item of the regex pattern: a literal piece or a `(C+)` capture group. -/
inductive RItem where
  | lit (l : List Char)
  | grp (cls : Char → Bool)

/-- Match a pattern against a prefix of `s`, returning the captured groups.
Greedy `(C+)` groups take the maximal run of their class; this agrees with
Python backtracking for the pattern used here (see section comment). -/
def matchItems : List RItem → List Char → Option (List (List Char))
  | [], _ => some []
  | .lit l :: rest, s =>
    if l.isPrefixOf s then matchItems rest (s.drop l.length) else none
  | .grp c :: rest, s =>
    let run := s.takeWhile c
    if run.isEmpty then none
    else (matchItems rest (s.drop run.length)).map (run :: ·)

/-- Embedding of `re.search`: try to match at each start position, leftmost
first. -/
def reSearch (items : List RItem) : List Char → Option (List (List Char))
  | [] => matchItems items []
  | c :: t =>
    match matchItems items (c :: t) with
    | some caps => some caps
    | none => reSearch items t

/-- The fixed pattern of `parse_data` (line 94):
`P:([\d.-]+),T:([\d.-]+),MV:([\d.-]+),SH:([\d.-]+),F:(\w+),M:(\w+),ESD:(\w+),ESTADO:([\w\s:]+),RELIEF:(\w+),PURGE:(\w+)`. -/
def patron : List RItem :=
  [ .lit ['P', ':'], .grp classNum,
    .lit [',', 'T', ':'], .grp classNum,
    .lit [',', 'M', 'V', ':'], .grp classNum,
    .lit [',', 'S', 'H', ':'], .grp classNum,
    .lit [',', 'F', ':'], .grp classWord,
    .lit [',', 'M', ':'], .grp classWord,
    .lit [',', 'E', 'S', 'D', ':'], .grp classWord,
    .lit [',', 'E', 'S', 'T', 'A', 'D', 'O', ':'], .grp classEstado,
    .lit [',', 'R', 'E', 'L', 'I', 'E', 'F', ':'], .grp classWord,
    .lit [',', 'P', 'U', 'R', 'G', 'E', ':'], .grp classWord ]

/-- The record returned by `parse_data` (lines 98-109). -/
structure Sample where
  P : ℚ
  T : ℚ
  MV : ℚ
  SH : ℚ
  F : List Char
  M : List Char
  ESD : List Char
  ESTADO : List Char
  RELIEF : List Char
  PURGE : List Char
deriving DecidableEq

/-- Float conversions of the four numeric groups (the `try` block of lines
97-111); `none` models the caught `ValueError`. -/
def parseCaps : List (List Char) → Option Sample
  | [g1, g2, g3, g4, g5, g6, g7, g8, g9, g10] =>
    match pyFloat? g1, pyFloat? g2, pyFloat? g3, pyFloat? g4 with
    | some p, some t, some mv, some sh =>
      some ⟨p, t, mv, sh, g5, g6, g7, g8, g9, g10⟩
    | _, _, _, _ => none
  | _ => none

/-- Embedding of `SerialReader.parse_data` (lines 92-112). -/
def parse_data (line : List Char) : Option Sample :=
  match reSearch patron line with
  | some caps => parseCaps caps
  | none => none

/-! ## The wire grammar, as data

A well-formed line is the concatenation of the ten literal keys with ten
field values.  `mkLine` synthesizes the line from its fields. -/

/-- Raw field values of one wire line. -/
structure LineFields where
  p : List Char
  t : List Char
  mv : List Char
  sh : List Char
  f : List Char
  m : List Char
  esd : List Char
  estado : List Char
  relief : List Char
  purge : List Char
deriving DecidableEq

/-- Synthesize the wire line from field values. -/
def mkLine (L : LineFields) : List Char :=
  ['P', ':'] ++ L.p ++ [',', 'T', ':'] ++ L.t ++ [',', 'M', 'V', ':'] ++ L.mv ++
  [',', 'S', 'H', ':'] ++ L.sh ++ [',', 'F', ':'] ++ L.f ++ [',', 'M', ':'] ++ L.m ++
  [',', 'E', 'S', 'D', ':'] ++ L.esd ++ [',', 'E', 'S', 'T', 'A', 'D', 'O', ':'] ++ L.estado ++
  [',', 'R', 'E', 'L', 'I', 'E', 'F', ':'] ++ L.relief ++
  [',', 'P', 'U', 'R', 'G', 'E', ':'] ++ L.purge

/-- The capture groups of a match, interleaved with the literal pieces of the
pattern: the exact piece of text the match consumed. -/
def glue : List RItem → List (List Char) → List Char
  | [], _ => []
  | .lit l :: is, caps => l ++ glue is caps
  | .grp _ :: _, [] => []
  | .grp _ :: is, g :: caps => g ++ glue is caps

/-- Shape condition on capture groups: one nonempty group per `grp` item, all
characters inside the group class, no groups left over. -/
def AlignedOK : List RItem → List (List Char) → Prop
  | [], caps => caps = []
  | .lit _ :: is, caps => AlignedOK is caps
  | .grp _ :: _, [] => False
  | .grp c :: is, g :: caps => g ≠ [] ∧ (∀ ch ∈ g, c ch = true) ∧ AlignedOK is caps

/-- Blocking condition: the first character after each group (inside the glued
text followed by `rest`) is outside the group class, so the maximal run of the
class is exactly the group. -/
def Blocked : List RItem → List (List Char) → List Char → Prop
  | [], _, _ => True
  | .lit _ :: is, caps, rest => Blocked is caps rest
  | .grp _ :: _, [], _ => True
  | .grp c :: is, _ :: caps, rest =>
    (∀ ch, (glue is caps ++ rest).head? = some ch → c ch = false) ∧ Blocked is caps rest

/-- Well-formedness of the six textual fields of a wire line: nonempty token
values over `\w` and a nonempty `ESTADO` value over `[\w\s:]`. -/
def WFText (L : LineFields) : Prop :=
  L.f ≠ [] ∧ (∀ c ∈ L.f, classWord c = true) ∧
  L.m ≠ [] ∧ (∀ c ∈ L.m, classWord c = true) ∧
  L.esd ≠ [] ∧ (∀ c ∈ L.esd, classWord c = true) ∧
  L.estado ≠ [] ∧ (∀ c ∈ L.estado, classEstado c = true) ∧
  L.relief ≠ [] ∧ (∀ c ∈ L.relief, classWord c = true) ∧
  L.purge ≠ [] ∧ (∀ c ∈ L.purge, classWord c = true)

/-! ## Severity classification of the system-state label

Embedding of the keyword tests of `update_label_styles` (lines 362-368): the
`ESTADO` string is classified by substring membership, critical keywords
checked before warning keywords. -/

inductive Severity where
  | critical
  | warning
  | nominal
deriving DecidableEq

/-- Keywords of the critical tier (line 363). -/
def criticalWords : List (List Char) :=
  ["Alivio".data, "Purga".data, "Emergencia".data]

/-- Keywords of the warning tier (line 365). -/
def warningWords : List (List Char) :=
  ["Advertencia".data, "Recuperación".data, "Precalentamiento".data]

/-- Contiguous substring test, the semantics of Python `word in estado`: `w`
occurs as a prefix of some suffix (an empty `w` always occurs). -/
def containsSub (w : List Char) : List Char → Bool
  | [] => w.isEmpty
  | c :: t => w.isPrefixOf (c :: t) || containsSub w t

/-- Embedding of the `if`/`elif`/`else` chain on `estado` in
`update_label_styles`: Python `word in estado` is contiguous substring
membership. -/
def classifyEstado (estado : List Char) : Severity :=
  if criticalWords.any (fun w => containsSub w estado) then .critical
  else if warningWords.any (fun w => containsSub w estado) then .warning
  else .nominal

/-! ## The plotter state

Embedding of the mutable fields of `PlotterApp` that the data pipeline uses
(lines 178-188).  The three numpy arrays are embedded as lists of fixed length
`MAX_POINTS`; wall-clock instants (`time.time()` values) are inputs of each
operation. -/

structure AppState where
  first_data_time : Option ℚ
  x_data : List ℚ
  y1_data : List ℚ
  y2_data : List ℚ
  data_index : ℕ
  last_p : Option ℚ
  last_t : Option ℚ
  last_update_time : Option ℚ
  plot_dirty : Bool
deriving DecidableEq

/-- The state constructed in `PlotterApp.__init__` (lines 178-188): zeroed
arrays, `data_index = 0`, all `None` caches, clean flag. -/
def initState : AppState :=
  { first_data_time := none
    x_data := List.replicate MAX_POINTS 0
    y1_data := List.replicate MAX_POINTS 0
    y2_data := List.replicate MAX_POINTS 0
    data_index := 0
    last_p := none
    last_t := none
    last_update_time := none
    plot_dirty := false }

/-- The circular-slot write shared by lines 243-248 (real insertion) and lines
273-277 (synthetic insertion): write the three parallel arrays at
`data_index % MAX_POINTS` and increment `data_index`. -/
def writeSample (s : AppState) (xt p t : ℚ) : AppState :=
  let idx := s.data_index % MAX_POINTS
  { s with
    x_data := s.x_data.set idx xt
    y1_data := s.y1_data.set idx p
    y2_data := s.y2_data.set idx t
    data_index := s.data_index + 1 }

/-- Embedding of `PlotterApp.receive_data` (lines 229-256) at arrival
wall-clock time `cr`; label updates are presentation-only and modelled by
`classifyEstado` separately. -/
def receive_data (s : AppState) (d : Sample) (cr : ℚ) : AppState :=
  let fdt := s.first_data_time.getD cr
  let graph_t := cr - fdt
  { writeSample s graph_t d.P d.T with
    first_data_time := some fdt
    last_p := some d.P
    last_t := some d.T
    last_update_time := some cr
    plot_dirty := true }

/-- Embedding of the dummy-point `while` loop of `update_plots` (lines
264-280), as a fuel-indexed recursion.  Returns the new state, the
`added_dummy` flag, and (as specification instrumentation) the list of
`(relativeTime, pressure, temperature)` triples written by the loop.  The
source guards on `first_data_time`, `last_update_time` and `last_p`; `last_t`
is matched as well, which agrees with the source on every reachable state
because `last_p` and `last_t` are always assigned together (lines 251-252). -/
def gapLoop : ℕ → AppState → ℚ → Bool → AppState × Bool × List (ℚ × ℚ × ℚ)
  | 0, s, _, ad => (s, ad, [])
  | fuel + 1, s, cr, ad =>
    match s.first_data_time, s.last_update_time, s.last_p, s.last_t with
    | some f, some lut, some p, some t =>
      if lut + interval_s ≤ cr then
        let expected_next := lut + interval_s
        let graph_t_dummy := expected_next - f
        let s1 := { writeSample s graph_t_dummy p t with
                      last_update_time := some expected_next }
        let r := gapLoop fuel s1 cr true
        (r.1, r.2.1, (graph_t_dummy, p, t) :: r.2.2)
      else (s, ad, [])
    | _, _, _, _ => (s, ad, [])

/-- Fuel that provably lets `gapLoop` run until its condition fails: one more
than the number of whole intervals between `last_update_time` and `cr`. -/
def gapFuel (s : AppState) (cr : ℚ) : ℕ :=
  match s.last_update_time with
  | some lut => Nat.floor ((cr - lut) / interval_s) + 1
  | none => 0

/-- The snapshot built by the render step (lines 284-302): the first
`n_points` entries while the buffer is filling, and the rotation
`[data_index % N .. N) ++ [0 .. data_index % N)` once it is full. -/
def snapshotOf (s : AppState) : List ℚ × List ℚ × List ℚ :=
  let n_points := min s.data_index MAX_POINTS
  if n_points < MAX_POINTS then
    (s.x_data.take n_points, s.y1_data.take n_points, s.y2_data.take n_points)
  else
    let start := s.data_index % MAX_POINTS
    (s.x_data.drop start ++ s.x_data.take start,
     s.y1_data.drop start ++ s.y1_data.take start,
     s.y2_data.drop start ++ s.y2_data.take start)

/-- Embedding of `PlotterApp.update_plots` (lines 258-320) at tick wall-clock
time `cr`: run the gap loop, then redraw only if `plot_dirty or added_dummy`
and at least one point exists.  Returns the new state, `some` snapshot when a
redraw is requested (`none` models returning without drawing), and the gap
loop's instrumentation log.  Axis-limit arithmetic and the elapsed-time label
are presentation-only and carry no state. -/
def update_plots (s : AppState) (cr : ℚ) :
    AppState × Option (List ℚ × List ℚ × List ℚ) × List (ℚ × ℚ × ℚ) :=
  let r := gapLoop (gapFuel s cr) s cr false
  let s1 := r.1
  let added_dummy := r.2.1
  if s1.plot_dirty || added_dummy then
    let n_points := min s1.data_index MAX_POINTS
    if n_points = 0 then (s1, none, r.2.2)
    else ({ s1 with plot_dirty := false }, some (snapshotOf s1), r.2.2)
  else (s1, none, r.2.2)

/-! ## Runs

A run interleaves real-sample arrivals (the serial thread's queued
`receive_data` calls) and render ticks, each carrying the wall-clock instant
at which it executes.  `runEvents` threads the state through the events and
collects, as instrumentation, the `(relativeTime, pressure, temperature)`
triple of every inserted sample, real or synthetic, in insertion order. -/

inductive Event where
  | real (d : Sample) (cr : ℚ)
  | tick (cr : ℚ)

/-- Wall-clock instant of an event. -/
def eventTime : Event → ℚ
  | .real _ cr => cr
  | .tick cr => cr

/-- One event step: the new state and the samples inserted by the event. -/
def stepEvent (s : AppState) : Event → AppState × List (ℚ × ℚ × ℚ)
  | .real d cr =>
    (receive_data s d cr, [(cr - s.first_data_time.getD cr, d.P, d.T)])
  | .tick cr =>
    let r := update_plots s cr
    (r.1, r.2.2)

/-- Run a list of events, collecting the insertion history. -/
def runEvents (s : AppState) : List Event → AppState × List (ℚ × ℚ × ℚ)
  | [] => (s, [])
  | e :: rest =>
    let r := stepEvent s e
    let r2 := runEvents r.1 rest
    (r2.1, r.2 ++ r2.2)

/-- The payload of the last real-sample event of a run, if any. -/
def lastReal : List Event → Option Sample
  | [] => none
  | e :: rest =>
    match lastReal rest with
    | some d => some d
    | none => match e with | .real d _ => some d | .tick _ => none

/-- The wall-clock instant of the first real-sample event of a run, if any. -/
def firstReal : List Event → Option ℚ
  | [] => none
  | .real _ cr :: _ => some cr
  | .tick _ :: rest => firstReal rest

/-- Boolean strict-increase test for a list of rationals. -/
def strictIncr : List ℚ → Bool
  | [] => true
  | [_] => true
  | a :: b :: t => (decide (a < b)) && strictIncr (b :: t)

/-! ## Invariants of the store -/

/-- Ring-content invariant: `data_index` counts the insertion history, the
arrays have physical length `MAX_POINTS`, and slot `m % MAX_POINTS` holds the
`m`-th inserted sample for every `m` in the live window (the last
`min (length, MAX_POINTS)` insertions). -/
def RingInv (s : AppState) (hist : List (ℚ × ℚ × ℚ)) : Prop :=
  s.data_index = hist.length ∧
  s.x_data.length = MAX_POINTS ∧
  s.y1_data.length = MAX_POINTS ∧
  s.y2_data.length = MAX_POINTS ∧
  ∀ m e, hist.length ≤ m + MAX_POINTS → hist[m]? = some e →
    s.x_data[m % MAX_POINTS]? = some e.1 ∧
    s.y1_data[m % MAX_POINTS]? = some e.2.1 ∧
    s.y2_data[m % MAX_POINTS]? = some e.2.2

/-- Clock-synchronization invariant under the bound `b` on all processed
wall-clock instants: the history's relative times strictly increase, and
either nothing has ever been inserted (all caches `None`, flag clean) or the
caches are populated, `last_update_time ≤ b`, and the last inserted relative
time is `last_update_time - first_data_time`. -/
def SyncInv (s : AppState) (hist : List (ℚ × ℚ × ℚ)) (b : ℚ) : Prop :=
  List.Chain' (· < ·) (hist.map (·.1)) ∧
  ((s.first_data_time = none ∧ s.last_update_time = none ∧ s.last_p = none ∧
      s.last_t = none ∧ s.plot_dirty = false ∧ hist = []) ∨
   (∃ f lut, s.first_data_time = some f ∧ s.last_update_time = some lut ∧
      lut ≤ b ∧ (hist.map (·.1)).getLast? = some (lut - f)))

/-! ## The serial reader

Embedding of `SerialReader.run` and `SerialReader.stop` (lines 61-90).  The
read loop is driven by a list of read results: a decoded line, a
`serial.SerialException` on the read path, or any other exception (caught and
skipped by the `continue` handler).  `running` and the open/closed state of
the connection are the reader's state. -/

structure ReaderState where
  running : Bool
  ser_open : Bool
deriving DecidableEq

inductive ReadResult where
  | line (l : List Char)
  | serialError
  | otherError
deriving DecidableEq

/-- Embedding of Python `str.strip()` (ASCII whitespace). -/
def stripChars (l : List Char) : List Char :=
  ((l.dropWhile classSpace).reverse.dropWhile classSpace).reverse

/-- The body of the `while self.running` loop (lines 65-85): decoded lines are
trimmed, empty lines skipped, parser rejections skipped; a
`serial.SerialException` sets `running = False` and the loop exits (consuming
nothing further); any other exception hits `continue`.  Returns the final
state and the samples emitted in order. -/
def readLoop : ReaderState → List ReadResult → ReaderState × List Sample
  | s, [] => (s, [])
  | s, r :: rs =>
    match r with
    | .line l =>
      let tl := stripChars l
      let out := readLoop s rs
      if tl.isEmpty then out
      else
        match parse_data tl with
        | some d => (out.1, d :: out.2)
        | none => out
    | .serialError => ({ s with running := false }, [])
    | .otherError => readLoop s rs

/-- Embedding of `SerialReader.run` (lines 61-85): the loop body runs only if
the reader is running. -/
def runReader (s : ReaderState) (ins : List ReadResult) : ReaderState × List Sample :=
  if s.running then readLoop s ins else (s, [])

/-- Embedding of `SerialReader.stop` (lines 87-90): clear `running` and close
the connection. -/
def stopReader (_ : ReaderState) : ReaderState :=
  { running := false, ser_open := false }

/-! ## Concrete fixtures used by witnesses and counterexamples -/

/-- The end-to-end example line of the specification. -/
def exampleLine : List Char :=
  ("P:300.5,T:150.2,MV:45.0,SH:10.0,F:A,M:AUTO,ESD:Normal," ++
   "ESTADO:Operando Normal,RELIEF:Cerrada,PURGE:Cerrada").data

/-- The example line with an eleventh field appended: a field-count violation
of the wire grammar. -/
def elevenFieldLine : List Char := exampleLine ++ (",X:1").data

/-- The sample parsed from `exampleLine`. -/
def exampleSample : Sample :=
  ⟨300.5, 150.2, 45, 10, ['A'], "AUTO".data, "Normal".data,
   "Operando Normal".data, "Cerrada".data, "Cerrada".data⟩

/-- Field values of `exampleLine`. -/
def exampleFields : LineFields :=
  ⟨"300.5".data, "150.2".data, "45.0".data, "10.0".data, ['A'], "AUTO".data,
   "Normal".data, "Operando Normal".data, "Cerrada".data, "Cerrada".data⟩

/-- A fixed sample payload for run fixtures. -/
def sample1 : Sample := ⟨1, 2, 3, 4, ['A'], ['B'], ['C'], ['D'], ['E'], ['F']⟩

/-- A run of `MAX_POINTS` real arrivals at wall-clock times `0, 1, …, 199`. -/
def fillRun : List Event :=
  (List.range MAX_POINTS).map (fun i => Event.real sample1 (i : ℚ))

/-- The state after one real arrival at time `0`. -/
def oneSampleState : AppState := receive_data initState sample1 0

/-- A short run: sample, tick, sample, at strictly increasing instants. -/
def shortRun : List Event :=
  [Event.real sample1 0, Event.tick (25/100), Event.real sample1 (3/10)]

/-- A run of a single real arrival. -/
def oneRun : List Event := [Event.real sample1 0]

set_option maxRecDepth 16000

/-! ## Lemmas about the matcher -/

/-- Splitting a list at the end of its maximal `p`-run. -/
theorem takeWhile_append_drop_self (p : Char → Bool) :
    ∀ l : List Char, l.takeWhile p ++ l.drop (l.takeWhile p).length = l := by
  intro l
  induction l with
  | nil => rfl
  | cons a t ih =>
    by_cases hp : p a
    · simp [List.takeWhile_cons, hp, ih]
    · simp [List.takeWhile_cons, hp]

/-- The maximal `p`-run of `g ++ t` is `g` when all of `g` satisfies `p` and
the head of `t` does not. -/
theorem takeWhile_eq_left (p : Char → Bool) (g t : List Char)
    (hg : ∀ c ∈ g, p c = true) (ht : ∀ ch, t.head? = some ch → p ch = false) :
    (g ++ t).takeWhile p = g := by
  induction g with
  | nil =>
    cases t with
    | nil => rfl
    | cons b u =>
      have hb := ht b rfl
      simp [List.takeWhile_cons, hb]
  | cons a g ih =>
    have ha := hg a (by simp)
    simp [List.cons_append, List.takeWhile_cons, ha,
      ih (fun c hc => hg c (by simp [hc]))]

/-- Soundness of the matcher: a successful match decomposes the input into the
glued literals/groups followed by an unconsumed remainder, with every group
nonempty and inside its class. -/
theorem matchItems_sound :
    ∀ (items : List RItem) (s : List Char) (caps : List (List Char)),
      matchItems items s = some caps →
      AlignedOK items caps ∧ ∃ rest, s = glue items caps ++ rest := by
  intro items
  induction items with
  | nil =>
    intro s caps h
    simp only [matchItems, Option.some.injEq] at h
    subst h
    exact ⟨rfl, s, by simp [glue]⟩
  | cons i is ih =>
    intro s caps h
    cases i with
    | lit l =>
      simp only [matchItems] at h
      by_cases hpre : l.isPrefixOf s
      · rw [if_pos hpre] at h
        obtain ⟨hA, rest, hrest⟩ := ih _ _ h
        obtain ⟨t, rfl⟩ := List.isPrefixOf_iff_prefix.mp hpre
        refine ⟨hA, rest, ?_⟩
        rw [List.drop_left] at hrest
        simp [glue, hrest]
      · rw [if_neg hpre] at h
        exact absurd h (by simp)
    | grp c =>
      simp only [matchItems] at h
      by_cases hrun : (s.takeWhile c).isEmpty
      · rw [if_pos hrun] at h
        exact absurd h (by simp)
      · rw [if_neg hrun] at h
        cases h2 : matchItems is (s.drop (s.takeWhile c).length) with
        | none => rw [h2] at h; exact absurd h (by simp)
        | some caps2 =>
          rw [h2] at h
          simp only [Option.map, Option.some.injEq] at h
          subst h
          obtain ⟨hA, rest, hrest⟩ := ih _ _ h2
          refine ⟨⟨?_, ?_, hA⟩, rest, ?_⟩
          · simpa [List.isEmpty_iff] using hrun
          · intro ch hch
            exact List.mem_takeWhile_imp hch
          · simp only [glue, List.append_assoc]
            rw [← hrest]
            exact (takeWhile_append_drop_self c s).symm

/-- Exactness of the matcher: on input glued from aligned groups, with each
group blocked by the following character, the matcher returns exactly those
groups. -/
theorem matchItems_exact :
    ∀ (items : List RItem) (caps : List (List Char)) (rest : List Char),
      AlignedOK items caps → Blocked items caps rest →
      matchItems items (glue items caps ++ rest) = some caps := by
  intro items
  induction items with
  | nil =>
    intro caps rest hA _
    simp only [AlignedOK] at hA
    subst hA
    simp [matchItems, glue]
  | cons i is ih =>
    intro caps rest hA hB
    cases i with
    | lit l =>
      simp only [AlignedOK] at hA
      simp only [Blocked] at hB
      simp only [glue, List.append_assoc, matchItems]
      rw [if_pos (List.isPrefixOf_iff_prefix.mpr (List.prefix_append l _))]
      rw [List.drop_left]
      exact ih caps rest hA hB
    | grp c =>
      cases caps with
      | nil => simp only [AlignedOK] at hA
      | cons g caps =>
        obtain ⟨hg0, hgc, hA'⟩ := hA
        obtain ⟨hblk, hB'⟩ := hB
        simp only [glue, List.append_assoc, matchItems]
        rw [takeWhile_eq_left c g _ hgc hblk]
        rw [if_neg (by simpa [List.isEmpty_iff] using hg0)]
        rw [List.drop_left]
        rw [ih caps rest hA' hB']
        rfl

/-- Soundness of `re.search`: a hit is a hit of `matchItems` at some start
position. -/
theorem reSearch_sound (items : List RItem) :
    ∀ (s : List Char) (caps : List (List Char)),
      reSearch items s = some caps →
      ∃ pre suf, s = pre ++ suf ∧ matchItems items suf = some caps := by
  intro s
  induction s with
  | nil => intro caps h; exact ⟨[], [], rfl, h⟩
  | cons c t ih =>
    intro caps h
    simp only [reSearch] at h
    cases h2 : matchItems items (c :: t) with
    | some caps2 =>
      rw [h2] at h
      simp only [Option.some.injEq] at h
      subst h
      exact ⟨[], c :: t, rfl, h2⟩
    | none =>
      rw [h2] at h
      obtain ⟨pre, suf, hsplit, hm⟩ := ih caps h
      exact ⟨c :: pre, suf, by simp [hsplit], hm⟩

/-- A match at position zero is what `re.search` returns. -/
theorem reSearch_of_match (items : List RItem) (s : List Char)
    (caps : List (List Char)) (h : matchItems items s = some caps) :
    reSearch items s = some caps := by
  cases s with
  | nil => exact h
  | cons c t => simp only [reSearch, h]

/-- Characters accepted by `pyFloatCore`: a successful conversion forces a
nonempty string over the class `[\d.-]`. -/
theorem pyFloatCore_shape (s1 : List Char) (q : ℚ) (h : pyFloatCore s1 = some q) :
    s1 ≠ [] ∧ ∀ c ∈ s1, classNum c = true := by
  have hsplit := takeWhile_append_drop_self Char.isDigit s1
  simp only [pyFloatCore] at h
  split_ifs at h with hA hB hC hD hE
  case _ =>
    have hr : s1.drop (s1.takeWhile Char.isDigit).length = [] := List.isEmpty_iff.mp hA
    have hs : s1 = s1.takeWhile Char.isDigit := by
      conv_lhs => rw [← hsplit]
      rw [hr, List.append_nil]
    constructor
    · intro h0
      subst h0
      exact hB rfl
    · intro c hc
      rw [hs] at hc
      have hd := List.mem_takeWhile_imp hc
      simp [classNum, hd]
  case _ =>
    have hne : s1.drop (s1.takeWhile Char.isDigit).length ≠ [] := by
      intro h0
      apply hA
      rw [h0]
      rfl
    generalize hrest : s1.drop (s1.takeWhile Char.isDigit).length = rest at hC hD hne hsplit
    cases rest with
    | nil => exact absurd rfl hne
    | cons r0 fr =>
      have hr0 : r0 = '.' := by simpa using hC
      subst hr0
      have hfr : fr = fr.takeWhile Char.isDigit := by
        have h2 := takeWhile_append_drop_self Char.isDigit fr
        have h3 : fr.drop (fr.takeWhile Char.isDigit).length = [] := by
          apply List.isEmpty_iff.mp
          simpa using hD
        conv_lhs => rw [← h2]
        rw [h3, List.append_nil]
      constructor
      · intro h0
        rw [h0] at hsplit
        simp at hsplit
      · intro c hc
        rw [← hsplit] at hc
        rcases List.mem_append.mp hc with h1 | h2
        · have hd := List.mem_takeWhile_imp h1
          simp [classNum, hd]
        · rcases List.mem_cons.mp h2 with rfl | h3
          · decide
          · rw [hfr] at h3
            have hd := List.mem_takeWhile_imp h3
            simp [classNum, hd]

/-- Characters accepted by `pyFloat?`. -/
theorem pyFloat_shape (s : List Char) (q : ℚ) (h : pyFloat? s = some q) :
    s ≠ [] ∧ ∀ c ∈ s, classNum c = true := by
  unfold pyFloat? at h
  split_ifs at h with hneg
  · cases s with
    | nil => simp at hneg
    | cons a t =>
      have ha : a = '-' := by simpa using hneg
      subst ha
      simp only [List.tail_cons] at h
      cases hc : pyFloatCore t with
      | none => rw [hc] at h; exact absurd h (by simp)
      | some m =>
        obtain ⟨-, htc⟩ := pyFloatCore_shape t m hc
        refine ⟨by simp, ?_⟩
        intro c hcmem
        rcases List.mem_cons.mp hcmem with rfl | hmem
        · decide
        · exact htc c hmem
  · cases hc : pyFloatCore s with
    | none => rw [hc] at h; exact absurd h (by simp)
    | some m =>
      exact pyFloatCore_shape s m hc

/-- The glued text of the ten-group pattern is exactly the synthesized wire
line. -/
theorem glue_patron (g1 g2 g3 g4 g5 g6 g7 g8 g9 g10 : List Char) :
    glue patron [g1, g2, g3, g4, g5, g6, g7, g8, g9, g10] =
      mkLine ⟨g1, g2, g3, g4, g5, g6, g7, g8, g9, g10⟩ := by
  simp [glue, patron, mkLine]

/-- Inversion of the float-conversion step: a produced sample pins the ten
capture groups and the four conversions. -/
theorem parseCaps_sound (caps : List (List Char)) (r : Sample)
    (h : parseCaps caps = some r) :
    ∃ g1 g2 g3 g4 g5 g6 g7 g8 g9 g10,
      caps = [g1, g2, g3, g4, g5, g6, g7, g8, g9, g10] ∧
      pyFloat? g1 = some r.P ∧ pyFloat? g2 = some r.T ∧
      pyFloat? g3 = some r.MV ∧ pyFloat? g4 = some r.SH ∧
      r.F = g5 ∧ r.M = g6 ∧ r.ESD = g7 ∧ r.ESTADO = g8 ∧
      r.RELIEF = g9 ∧ r.PURGE = g10 := by
  rcases caps with _ | ⟨g1, _ | ⟨g2, _ | ⟨g3, _ | ⟨g4, _ | ⟨g5, _ | ⟨g6, _ |
    ⟨g7, _ | ⟨g8, _ | ⟨g9, _ | ⟨g10, _ | ⟨g11, caps⟩⟩⟩⟩⟩⟩⟩⟩⟩⟩⟩
  · simp [parseCaps] at h
  · simp [parseCaps] at h
  · simp [parseCaps] at h
  · simp [parseCaps] at h
  · simp [parseCaps] at h
  · simp [parseCaps] at h
  · simp [parseCaps] at h
  · simp [parseCaps] at h
  · simp [parseCaps] at h
  · simp [parseCaps] at h
  · cases hp1 : pyFloat? g1 with
    | none => simp [parseCaps, hp1] at h
    | some q1 =>
      cases hp2 : pyFloat? g2 with
      | none => simp [parseCaps, hp1, hp2] at h
      | some q2 =>
        cases hp3 : pyFloat? g3 with
        | none => simp [parseCaps, hp1, hp2, hp3] at h
        | some q3 =>
          cases hp4 : pyFloat? g4 with
          | none => simp [parseCaps, hp1, hp2, hp3, hp4] at h
          | some q4 =>
            have hr : r = ⟨q1, q2, q3, q4, g5, g6, g7, g8, g9, g10⟩ := by
              simp [parseCaps, hp1, hp2, hp3, hp4] at h
              exact h.symm
            subst hr
            exact ⟨g1, g2, g3, g4, g5, g6, g7, g8, g9, g10, rfl,
              hp1, hp2, hp3, hp4, rfl, rfl, rfl, rfl, rfl, rfl⟩
  · simp [parseCaps] at h

/-- C1 (amended): for every well-formed ten-field line, `parse_data` returns
the record of the line's four numbers converted to float and its six textual
values verbatim; and, in the other direction, every line `parse_data`
accepts contains a well-formed fragment of the grammar as an infix substring
whose numeric groups convert, and the returned record is exactly that
fragment's converted and verbatim fields (so a line containing no such
fragment returns `None`).  The original claim's rejection half — that every
line violating field order, field count, or numeric format yields `None` —
fails: see the eleventh-field counterexample.  Note the proved direction is
only accepted-implies-contains-fragment: containing a fragment does not
guarantee acceptance, since the leftmost match is the one converted and its
numeric conversion may fail (see the example after the counterexample). -/
theorem C1_parser_roundtrip :
    (∀ (L : LineFields) (q1 q2 q3 q4 : ℚ),
        WFText L →
        pyFloat? L.p = some q1 → pyFloat? L.t = some q2 →
        pyFloat? L.mv = some q3 → pyFloat? L.sh = some q4 →
        parse_data (mkLine L) =
          some ⟨q1, q2, q3, q4, L.f, L.m, L.esd, L.estado, L.relief, L.purge⟩) ∧
    (∀ (line : List Char) (r : Sample), parse_data line = some r →
        ∃ (pre post : List Char) (L : LineFields),
          line = pre ++ mkLine L ++ post ∧ WFText L ∧
          pyFloat? L.p = some r.P ∧ pyFloat? L.t = some r.T ∧
          pyFloat? L.mv = some r.MV ∧ pyFloat? L.sh = some r.SH ∧
          r.F = L.f ∧ r.M = L.m ∧ r.ESD = L.esd ∧ r.ESTADO = L.estado ∧
          r.RELIEF = L.relief ∧ r.PURGE = L.purge) := by
  constructor
  · intro L q1 q2 q3 q4 hW h1 h2 h3 h4
    obtain ⟨p, t, mv, sh, f, m, esd, est, rel, pu⟩ := L
    obtain ⟨hf0, hfc, hm0, hmc, hesd0, hesdc, hes0, hesc, hr0, hrc, hpu0, hpuc⟩ := hW
    obtain ⟨hp0, hpc⟩ := pyFloat_shape _ _ h1
    obtain ⟨ht0, htc⟩ := pyFloat_shape _ _ h2
    obtain ⟨hmv0, hmvc⟩ := pyFloat_shape _ _ h3
    obtain ⟨hsh0, hshc⟩ := pyFloat_shape _ _ h4
    have hA : AlignedOK patron [p, t, mv, sh, f, m, esd, est, rel, pu] :=
      ⟨hp0, hpc, ht0, htc, hmv0, hmvc, hsh0, hshc, hf0, hfc, hm0, hmc,
       hesd0, hesdc, hes0, hesc, hr0, hrc, hpu0, hpuc, rfl⟩
    have hB : Blocked patron [p, t, mv, sh, f, m, esd, est, rel, pu] [] := by
      refine ⟨?_, ?_, ?_, ?_, ?_, ?_, ?_, ?_, ?_, ?_, trivial⟩
      all_goals intro ch hch
      all_goals simp [glue] at hch
      all_goals subst hch
      all_goals decide
    have hm := matchItems_exact patron [p, t, mv, sh, f, m, esd, est, rel, pu] [] hA hB
    rw [List.append_nil, glue_patron] at hm
    have hres := reSearch_of_match _ _ _ hm
    show parse_data (mkLine ⟨p, t, mv, sh, f, m, esd, est, rel, pu⟩) = _
    simp [parse_data, hres, parseCaps, h1, h2, h3, h4]
  · intro line r h
    unfold parse_data at h
    cases hs : reSearch patron line with
    | none =>
      rw [hs] at h
      exact absurd h (by simp)
    | some caps =>
      rw [hs] at h
      obtain ⟨g1, g2, g3, g4, g5, g6, g7, g8, g9, g10, rfl, hf1, hf2, hf3, hf4,
        he5, he6, he7, he8, he9, he10⟩ := parseCaps_sound caps r h
      obtain ⟨pre, suf, hline, hm⟩ := reSearch_sound patron line _ hs
      obtain ⟨hA, rest, hsuf⟩ := matchItems_sound patron suf _ hm
      rw [glue_patron] at hsuf
      simp only [patron, AlignedOK] at hA
      obtain ⟨-, -, -, -, -, -, -, -, h5a, h5b, h6a, h6b, h7a, h7b, h8a, h8b,
        h9a, h9b, h10a, h10b, -⟩ := hA
      refine ⟨pre, rest, ⟨g1, g2, g3, g4, g5, g6, g7, g8, g9, g10⟩, ?_, ?_,
        hf1, hf2, hf3, hf4, he5, he6, he7, he8, he9, he10⟩
      · rw [hline, hsuf, List.append_assoc]
      · exact ⟨h5a, h5b, h6a, h6b, h7a, h7b, h8a, h8b, h9a, h9b, h10a, h10b⟩

/-- C1 counterexample: `elevenFieldLine` has eleven comma-separated fields — a
field-count violation of the wire grammar — yet `parse_data` accepts it and
returns the sample of its first ten fields, because `re.search` matches the
pattern anywhere inside the line. -/
theorem C1_extraField_accepted :
    parse_data elevenFieldLine = some exampleSample := by
  with_unfolding_all decide

example :
    parse_data
      (("P:-,T:0,MV:0,SH:0,F:A,M:A,ESD:A,ESTADO:A,RELIEF:A,PURGE:A,").data ++
        exampleLine) = none := by
  with_unfolding_all decide

/-! ## Lemmas about the gap-synthesis loop -/

/-- The gap loop never touches the anchor, the last-value cache, or the dirty
flag. -/
theorem gapLoop_preserves (fuel : ℕ) :
    ∀ (s : AppState) (cr : ℚ) (ad : Bool),
      (gapLoop fuel s cr ad).1.first_data_time = s.first_data_time ∧
      (gapLoop fuel s cr ad).1.last_p = s.last_p ∧
      (gapLoop fuel s cr ad).1.last_t = s.last_t ∧
      (gapLoop fuel s cr ad).1.plot_dirty = s.plot_dirty := by
  induction fuel with
  | zero => intro s cr ad; simp [gapLoop]
  | succ n ih =>
    intro s cr ad
    cases hf : s.first_data_time with
    | none => simp [gapLoop, hf]
    | some f =>
      cases hl : s.last_update_time with
      | none => simp [gapLoop, hf, hl]
      | some lut =>
        cases hp : s.last_p with
        | none => simp [gapLoop, hf, hl, hp]
        | some p =>
          cases ht : s.last_t with
          | none => simp [gapLoop, hf, hl, hp, ht]
          | some t =>
            by_cases hc : lut + interval_s ≤ cr
            · simp only [gapLoop, hf, hl, hp, ht, if_pos hc]
              simp [ih _ cr true, writeSample, hf, hp, ht]
            · simp [gapLoop, hf, hl, hp, ht, hc]

/-- An empty instrumentation log means the gap loop did nothing. -/
theorem gapLoop_log_nil (fuel : ℕ) :
    ∀ (s : AppState) (cr : ℚ) (ad : Bool),
      (gapLoop fuel s cr ad).2.2 = [] →
      (gapLoop fuel s cr ad).1 = s ∧ (gapLoop fuel s cr ad).2.1 = ad := by
  induction fuel with
  | zero => intro s cr ad _; simp [gapLoop]
  | succ n _ =>
    intro s cr ad hlog
    cases hf : s.first_data_time with
    | none => simp [gapLoop, hf]
    | some f =>
      cases hl : s.last_update_time with
      | none => simp [gapLoop, hf, hl]
      | some lut =>
        cases hp : s.last_p with
        | none => simp [gapLoop, hf, hl, hp]
        | some p =>
          cases ht : s.last_t with
          | none => simp [gapLoop, hf, hl, hp, ht]
          | some t =>
            by_cases hc : lut + interval_s ≤ cr
            · exfalso
              simp only [gapLoop, hf, hl, hp, ht, if_pos hc] at hlog
              exact List.cons_ne_nil _ _ hlog
            · simp [gapLoop, hf, hl, hp, ht, hc]

/-- The `added_dummy` flag is set exactly when the loop inserted something. -/
theorem gapLoop_added (fuel : ℕ) :
    ∀ (s : AppState) (cr : ℚ) (ad : Bool),
      (gapLoop fuel s cr ad).2.1 = (ad || !(gapLoop fuel s cr ad).2.2.isEmpty) := by
  induction fuel with
  | zero => intro s cr ad; simp [gapLoop]
  | succ n ih =>
    intro s cr ad
    cases hf : s.first_data_time with
    | none => simp [gapLoop, hf]
    | some f =>
      cases hl : s.last_update_time with
      | none => simp [gapLoop, hf, hl]
      | some lut =>
        cases hp : s.last_p with
        | none => simp [gapLoop, hf, hl, hp]
        | some p =>
          cases ht : s.last_t with
          | none => simp [gapLoop, hf, hl, hp, ht]
          | some t =>
            by_cases hc : lut + interval_s ≤ cr
            · simp only [gapLoop, hf, hl, hp, ht, if_pos hc]
              simp [ih _ cr true]
            · simp [gapLoop, hf, hl, hp, ht, hc]

/-- Positivity of the nominal interval. -/
theorem interval_s_pos : (0 : ℚ) < interval_s := by
  norm_num [interval_s, DATA_COLLECTION_INTERVAL_MS]

/-- Exact characterization of the gap loop: when `cr` lies in
`[lut + n·interval, lut + (n+1)·interval)` and the fuel exceeds `n`, the loop
runs exactly `n` iterations, inserting the evenly spaced hold-last-value
samples and advancing `last_update_time` by one interval per iteration. -/
theorem gapLoop_exact (n : ℕ) :
    ∀ (fuel : ℕ) (s : AppState) (cr f lut p t : ℚ) (ad : Bool),
      s.first_data_time = some f → s.last_update_time = some lut →
      s.last_p = some p → s.last_t = some t →
      n < fuel →
      lut + n * interval_s ≤ cr → cr < lut + (n + 1) * interval_s →
      (gapLoop fuel s cr ad).2.2 =
          (List.range n).map (fun (i : ℕ) => (lut - f + ((i : ℚ) + 1) * interval_s, p, t)) ∧
      (gapLoop fuel s cr ad).1.last_update_time = some (lut + n * interval_s) ∧
      (gapLoop fuel s cr ad).1.data_index = s.data_index + n := by
  induction n with
  | zero =>
    intro fuel s cr f lut p t ad hf hl hp ht hfuel h1 h2
    cases fuel with
    | zero => omega
    | succ fuel =>
      have hc : ¬(lut + interval_s ≤ cr) := by
        push_cast at h2
        intro hcc
        linarith
      simp [gapLoop, hf, hl, hp, ht, hc]
  | succ n ih =>
    intro fuel s cr f lut p t ad hf hl hp ht hfuel h1 h2
    cases fuel with
    | zero => omega
    | succ fuel =>
      have hI := interval_s_pos
      have hc : lut + interval_s ≤ cr := by
        push_cast at h1
        nlinarith [Nat.cast_nonneg (α := ℚ) n]
      simp only [gapLoop, hf, hl, hp, ht, if_pos hc]
      have h1b : (lut + interval_s) + n * interval_s ≤ cr := by
        push_cast at h1 ⊢
        linarith
      have h2b : cr < (lut + interval_s) + (n + 1) * interval_s := by
        push_cast at h2 ⊢
        linarith
      have hrec := ih fuel
        { writeSample s (lut + interval_s - f) p t with
            last_update_time := some (lut + interval_s) }
        cr f (lut + interval_s) p t true hf rfl hp ht (by omega) h1b h2b
      refine ⟨?_, ?_, ?_⟩
      · rw [hrec.1]
        simp only [List.range_succ_eq_map, List.map_cons, List.map_map]
        congr 1
        · exact congrArg (fun x => (x, p, t)) (by push_cast; ring)
        · apply List.map_congr_left
          intro i _
          simp only [Function.comp_apply]
          exact congrArg (fun x => (x, p, t)) (by push_cast; ring)
      · rw [hrec.2.1]
        congr 1
        push_cast
        ring
      · rw [hrec.2.2]
        simp [writeSample]
        omega

/-- C3: gap-synthesis correctness.  With the caches populated (`f` the
anchor, `lut` the last update instant, `p`/`t` the held values) and the tick
instant `cr` lying `n` to `n+1` intervals past `lut`, the loop run by
`update_plots` inserts exactly `n` synthetic samples at relative times
`t0 + interval, …, t0 + n·interval` (where `t0 = lut - f`), each holding the
last real pressure and temperature; each iteration advances
`last_update_time` by exactly one interval, leaving it at
`lut + n·interval`. -/
theorem C3_gap_synthesis (s : AppState) (cr f lut p t : ℚ) (n : ℕ)
    (hf : s.first_data_time = some f) (hl : s.last_update_time = some lut)
    (hp : s.last_p = some p) (ht : s.last_t = some t)
    (h1 : lut + n * interval_s ≤ cr) (h2 : cr < lut + (n + 1) * interval_s) :
    (gapLoop (gapFuel s cr) s cr false).2.2 =
        (List.range n).map
          (fun (i : ℕ) => ((lut - f) + ((i : ℚ) + 1) * interval_s, p, t)) ∧
    (gapLoop (gapFuel s cr) s cr false).1.last_update_time =
        some (lut + n * interval_s) ∧
    (gapLoop (gapFuel s cr) s cr false).1.data_index = s.data_index + n ∧
    (gapLoop (gapFuel s cr) s cr false).1.last_p = some p ∧
    (gapLoop (gapFuel s cr) s cr false).1.last_t = some t := by
  have hfuel : n < gapFuel s cr := by
    simp only [gapFuel, hl]
    have hle : (n : ℚ) ≤ (cr - lut) / interval_s := by
      rw [le_div_iff₀ interval_s_pos]
      linarith
    have h3 := Nat.le_floor hle
    omega
  obtain ⟨ha, hb, hc2⟩ :=
    gapLoop_exact n (gapFuel s cr) s cr f lut p t false hf hl hp ht hfuel h1 h2
  have hpres := gapLoop_preserves (gapFuel s cr) s cr false
  exact ⟨ha, hb, hc2, by rw [hpres.2.1, hp], by rw [hpres.2.2.1, ht]⟩

/-! ## Ring-content invariant -/

/-- The initial state satisfies the ring invariant with an empty history. -/
theorem ringInv_init : RingInv initState [] := by
  refine ⟨rfl, by simp [initState], by simp [initState], by simp [initState], ?_⟩
  intro m e _ hget
  simp at hget

/-- One slot write extends the ring invariant by one history entry. -/
theorem ringInv_writeSample (s : AppState) (hist : List (ℚ × ℚ × ℚ))
    (xt p t : ℚ) (h : RingInv s hist) :
    RingInv (writeSample s xt p t) (hist ++ [(xt, p, t)]) := by
  obtain ⟨hidx, hx, hy1, hy2, hslots⟩ := h
  have hMpos : 0 < MAX_POINTS := by decide
  refine ⟨by simp [writeSample, hidx], by simp [writeSample, hx],
    by simp [writeSample, hy1], by simp [writeSample, hy2], ?_⟩
  intro m e hwin hget
  have hlen : m < hist.length + 1 := by
    by_contra hge
    push_neg at hge
    rw [List.getElem?_eq_none (by simpa using hge)] at hget
    exact Option.noConfusion hget
  by_cases hm : m = hist.length
  · subst hm
    have he : e = (xt, p, t) := by
      rw [List.getElem?_append_right (le_refl _)] at hget
      simp at hget
      exact hget.symm
    subst he
    refine ⟨?_, ?_, ?_⟩
    all_goals simp only [writeSample, hidx]
    · rw [List.getElem?_set_self (by rw [hx]; exact Nat.mod_lt _ hMpos)]
    · rw [List.getElem?_set_self (by rw [hy1]; exact Nat.mod_lt _ hMpos)]
    · rw [List.getElem?_set_self (by rw [hy2]; exact Nat.mod_lt _ hMpos)]
  · have hm2 : m < hist.length := by omega
    have hget2 : hist[m]? = some e := by
      rw [List.getElem?_append_left hm2] at hget
      exact hget
    have hwin2 : hist.length ≤ m + MAX_POINTS := by
      have hl2 : (hist ++ [(xt, p, t)]).length = hist.length + 1 := by simp
      omega
    have hne : hist.length % MAX_POINTS ≠ m % MAX_POINTS := by
      have h200 : MAX_POINTS = 200 := rfl
      have hl2 : (hist ++ [(xt, p, t)]).length = hist.length + 1 := by simp
      rw [h200] at hwin ⊢
      omega
    obtain ⟨hs1, hs2, hs3⟩ := hslots m e hwin2 hget2
    refine ⟨?_, ?_, ?_⟩
    all_goals simp only [writeSample, hidx]
    · rw [List.getElem?_set_ne hne]
      exact hs1
    · rw [List.getElem?_set_ne hne]
      exact hs2
    · rw [List.getElem?_set_ne hne]
      exact hs3

/-- Real insertion extends the ring invariant by its inserted sample. -/
theorem ringInv_receive (s : AppState) (hist : List (ℚ × ℚ × ℚ))
    (d : Sample) (cr : ℚ) (h : RingInv s hist) :
    RingInv (receive_data s d cr)
      (hist ++ [(cr - s.first_data_time.getD cr, d.P, d.T)]) :=
  ringInv_writeSample s hist _ d.P d.T h

/-- The gap loop extends the ring invariant by its instrumentation log. -/
theorem ringInv_gapLoop (fuel : ℕ) :
    ∀ (s : AppState) (cr : ℚ) (ad : Bool) (hist : List (ℚ × ℚ × ℚ)),
      RingInv s hist →
      RingInv (gapLoop fuel s cr ad).1 (hist ++ (gapLoop fuel s cr ad).2.2) := by
  induction fuel with
  | zero => intro s cr ad hist h; simpa [gapLoop]
  | succ n ih =>
    intro s cr ad hist h
    cases hf : s.first_data_time with
    | none => simpa [gapLoop, hf]
    | some f =>
      cases hl : s.last_update_time with
      | none => simpa [gapLoop, hf, hl]
      | some lut =>
        cases hp : s.last_p with
        | none => simpa [gapLoop, hf, hl, hp]
        | some p =>
          cases ht : s.last_t with
          | none => simpa [gapLoop, hf, hl, hp, ht]
          | some t =>
            by_cases hc : lut + interval_s ≤ cr
            · simp only [gapLoop, hf, hl, hp, ht, if_pos hc]
              have hw := ringInv_writeSample s hist (lut + interval_s - f) p t h
              have hrec := ih
                { writeSample s (lut + interval_s - f) p t with
                    last_update_time := some (lut + interval_s) }
                cr true (hist ++ [(lut + interval_s - f, p, t)]) hw
              simpa [List.append_assoc] using hrec
            · simpa [gapLoop, hf, hl, hp, ht, hc]

/-- A render tick extends the ring invariant by its synthetic insertions. -/
theorem ringInv_update (s : AppState) (cr : ℚ) (hist : List (ℚ × ℚ × ℚ))
    (h : RingInv s hist) :
    RingInv (update_plots s cr).1 (hist ++ (update_plots s cr).2.2) := by
  have hg := ringInv_gapLoop (gapFuel s cr) s cr false hist h
  simp only [update_plots]
  split_ifs with h1 h2
  · simpa using hg
  · simpa using hg
  · simpa using hg

/-- A whole run extends the ring invariant by its insertion history. -/
theorem ringInv_run (es : List Event) :
    ∀ (s : AppState) (hist : List (ℚ × ℚ × ℚ)),
      RingInv s hist →
      RingInv (runEvents s es).1 (hist ++ (runEvents s es).2) := by
  induction es with
  | nil => intro s hist h; simpa [runEvents]
  | cons e rest ih =>
    intro s hist h
    cases e with
    | real d cr =>
      have h2 := ringInv_receive s hist d cr h
      have h3 := ih _ _ h2
      simpa [runEvents, stepEvent, List.append_assoc] using h3
    | tick cr =>
      have h2 := ringInv_update s cr hist h
      have h3 := ih _ _ h2
      simpa [runEvents, stepEvent, List.append_assoc] using h3

/-- Prefill reading of one parallel array: while fewer than `MAX_POINTS`
entries exist, taking the first `hist.length` array cells yields the history
in insertion order. -/
theorem take_slots_eq (arr : List ℚ) (hist : List (ℚ × ℚ × ℚ))
    (sel : ℚ × ℚ × ℚ → ℚ)
    (_hlen : arr.length = MAX_POINTS) (hk : hist.length < MAX_POINTS)
    (hslots : ∀ m e, hist.length ≤ m + MAX_POINTS → hist[m]? = some e →
      arr[m % MAX_POINTS]? = some (sel e)) :
    arr.take hist.length = hist.map sel := by
  have h200 : MAX_POINTS = 200 := rfl
  simp only [h200] at hk hslots
  apply List.ext_getElem?
  intro n
  by_cases hn : n < hist.length
  · rw [List.getElem?_take_of_lt hn]
    obtain ⟨e, he⟩ : ∃ e, hist[n]? = some e := ⟨_, List.getElem?_eq_getElem hn⟩
    have hs := hslots n e (by omega) he
    have hmod : n % 200 = n := Nat.mod_eq_of_lt (by omega)
    rw [hmod] at hs
    rw [hs, List.getElem?_map, he]
    rfl
  · push_neg at hn
    rw [List.getElem?_take_eq_none hn, eq_comm,
      List.getElem?_eq_none (by simpa using hn)]

/-- Full-buffer reading of one parallel array: once at least `MAX_POINTS`
entries exist, the rotation `drop start ++ take start` at
`start = hist.length % MAX_POINTS` yields the last `MAX_POINTS` history
entries in insertion order. -/
theorem rotate_slots_eq (arr : List ℚ) (hist : List (ℚ × ℚ × ℚ))
    (sel : ℚ × ℚ × ℚ → ℚ)
    (hlen : arr.length = MAX_POINTS) (hk : MAX_POINTS ≤ hist.length)
    (hslots : ∀ m e, hist.length ≤ m + MAX_POINTS → hist[m]? = some e →
      arr[m % MAX_POINTS]? = some (sel e)) :
    arr.drop (hist.length % MAX_POINTS) ++ arr.take (hist.length % MAX_POINTS) =
      (hist.drop (hist.length - MAX_POINTS)).map sel := by
  have h200 : MAX_POINTS = 200 := rfl
  simp only [h200] at hlen hk hslots ⊢
  have hdroplen : (arr.drop (hist.length % 200)).length = 200 - hist.length % 200 := by
    simp [hlen]
  apply List.ext_getElem?
  intro n
  by_cases hn : n < 200
  · have hm : hist.length - 200 + n < hist.length := by omega
    obtain ⟨e, he⟩ : ∃ e, hist[hist.length - 200 + n]? = some e :=
      ⟨_, List.getElem?_eq_getElem hm⟩
    have hs := hslots _ e (by omega) he
    by_cases hcase : n < 200 - hist.length % 200
    · rw [List.getElem?_append_left (by rw [hdroplen]; omega)]
      rw [List.getElem?_drop]
      have hmod : (hist.length - 200 + n) % 200 = hist.length % 200 + n := by omega
      rw [hmod] at hs
      rw [hs, List.getElem?_map, List.getElem?_drop, he]
      rfl
    · push_neg at hcase
      rw [List.getElem?_append_right (by rw [hdroplen]; omega)]
      rw [hdroplen]
      rw [List.getElem?_take_of_lt (by omega)]
      have hmod : (hist.length - 200 + n) % 200 = n - (200 - hist.length % 200) := by
        omega
      rw [hmod] at hs
      rw [hs, List.getElem?_map, List.getElem?_drop, he]
      rfl
  · push_neg at hn
    have hminlem : min (hist.length % 200) arr.length = hist.length % 200 := by
      rw [hlen]
      omega
    rw [List.getElem?_eq_none (by simp [hdroplen, hminlem, hlen]; omega), eq_comm,
      List.getElem?_eq_none (by simp; omega)]

/-- C6 helper: snapshot contents while the buffer is filling. -/
theorem snapshotOf_prefill (s : AppState) (hist : List (ℚ × ℚ × ℚ))
    (h : RingInv s hist) (hk : hist.length < MAX_POINTS) :
    snapshotOf s = (hist.map (·.1), hist.map (·.2.1), hist.map (·.2.2)) := by
  obtain ⟨hidx, hx, hy1, hy2, hslots⟩ := h
  simp only [snapshotOf, hidx]
  rw [Nat.min_eq_left (le_of_lt hk), if_pos hk]
  refine Prod.ext ?_ (Prod.ext ?_ ?_)
  · exact take_slots_eq _ hist _ hx hk (fun m e hw hg => (hslots m e hw hg).1)
  · exact take_slots_eq _ hist _ hy1 hk (fun m e hw hg => (hslots m e hw hg).2.1)
  · exact take_slots_eq _ hist _ hy2 hk (fun m e hw hg => (hslots m e hw hg).2.2)

/-- C2 helper: snapshot contents once the buffer has wrapped. -/
theorem snapshotOf_full (s : AppState) (hist : List (ℚ × ℚ × ℚ))
    (h : RingInv s hist) (hk : MAX_POINTS ≤ hist.length) :
    snapshotOf s =
      ((hist.drop (hist.length - MAX_POINTS)).map (·.1),
       (hist.drop (hist.length - MAX_POINTS)).map (·.2.1),
       (hist.drop (hist.length - MAX_POINTS)).map (·.2.2)) := by
  obtain ⟨hidx, hx, hy1, hy2, hslots⟩ := h
  simp only [snapshotOf, hidx]
  rw [Nat.min_eq_right hk, if_neg (lt_irrefl _)]
  refine Prod.ext ?_ (Prod.ext ?_ ?_)
  · exact rotate_slots_eq _ hist _ hx hk (fun m e hw hg => (hslots m e hw hg).1)
  · exact rotate_slots_eq _ hist _ hy1 hk (fun m e hw hg => (hslots m e hw hg).2.1)
  · exact rotate_slots_eq _ hist _ hy2 hk (fun m e hw hg => (hslots m e hw hg).2.2)

/-! ## Clock-synchronization invariant -/

/-- The bound of `SyncInv` can be weakened. -/
theorem syncInv_mono (s : AppState) (hist : List (ℚ × ℚ × ℚ)) (b b2 : ℚ)
    (h : SyncInv s hist b) (hb : b ≤ b2) : SyncInv s hist b2 := by
  obtain ⟨hc, hd⟩ := h
  refine ⟨hc, ?_⟩
  rcases hd with hleft | ⟨f, lut, h1, h2, h3, h4⟩
  · exact Or.inl hleft
  · exact Or.inr ⟨f, lut, h1, h2, le_trans h3 hb, h4⟩

/-- The initial state is synchronized below any bound. -/
theorem syncInv_initState (b : ℚ) : SyncInv initState [] b :=
  ⟨by simp, Or.inl ⟨rfl, rfl, rfl, rfl, rfl, rfl⟩⟩

/-- Real insertion at an instant past the bound preserves synchronization. -/
theorem syncInv_receive (s : AppState) (hist : List (ℚ × ℚ × ℚ)) (b : ℚ)
    (d : Sample) (cr : ℚ) (h : SyncInv s hist b) (hb : b < cr) :
    SyncInv (receive_data s d cr)
      (hist ++ [(cr - s.first_data_time.getD cr, d.P, d.T)]) cr := by
  obtain ⟨hc, hd⟩ := h
  rcases hd with ⟨hf, hl, hp, ht, hdirty, hh⟩ | ⟨f, lut, hf, hl, hle, hlast⟩
  · subst hh
    refine ⟨by simp, Or.inr ⟨cr, cr, ?_, ?_, le_refl _, ?_⟩⟩
    · simp [receive_data, hf]
    · simp [receive_data]
    · simp [receive_data, hf]
  · constructor
    · rw [List.map_append, List.chain'_append]
      refine ⟨hc, by simp, ?_⟩
      intro x hx y hy
      rw [hlast] at hx
      simp at hx hy
      subst hx
      subst hy
      rw [hf, Option.getD_some]
      linarith
    · refine Or.inr ⟨f, cr, ?_, ?_, le_refl _, ?_⟩
      · simp [receive_data, hf]
      · simp [receive_data]
      · rw [List.map_append]
        simp [receive_data, hf]

/-- The gap loop, run at an instant at or past the bound, preserves
synchronization with the tick instant as the new bound. -/
theorem syncInv_gapLoop (fuel : ℕ) :
    ∀ (s : AppState) (cr : ℚ) (ad : Bool) (hist : List (ℚ × ℚ × ℚ)) (b : ℚ),
      SyncInv s hist b → b ≤ cr →
      SyncInv (gapLoop fuel s cr ad).1 (hist ++ (gapLoop fuel s cr ad).2.2) cr := by
  induction fuel with
  | zero =>
    intro s cr ad hist b h hb
    simpa [gapLoop] using syncInv_mono s hist b cr h hb
  | succ n ih =>
    intro s cr ad hist b h hb
    have hchain := h.1
    rcases h.2 with ⟨hf0, hl0, hp0, ht0, hdirty0, hh0⟩ | ⟨f, lut, hf0, hl0, hle0, hlast0⟩
    · simpa [gapLoop, hf0] using syncInv_mono s hist b cr h hb
    · cases hp : s.last_p with
      | none => simpa [gapLoop, hf0, hl0, hp] using syncInv_mono s hist b cr h hb
      | some p =>
        cases ht : s.last_t with
        | none => simpa [gapLoop, hf0, hl0, hp, ht] using syncInv_mono s hist b cr h hb
        | some t =>
          by_cases hcond : lut + interval_s ≤ cr
          · simp only [gapLoop, hf0, hl0, hp, ht, if_pos hcond]
            have hnew : SyncInv
                { writeSample s (lut + interval_s - f) p t with
                    last_update_time := some (lut + interval_s) }
                (hist ++ [(lut + interval_s - f, p, t)]) cr := by
              constructor
              · rw [List.map_append, List.chain'_append]
                refine ⟨hchain, by simp, ?_⟩
                intro x hx y hy
                rw [hlast0] at hx
                simp at hx hy
                subst hx
                subst hy
                have hI := interval_s_pos
                linarith
              · refine Or.inr ⟨f, lut + interval_s, ?_, rfl, hcond, ?_⟩
                · simpa [writeSample] using hf0
                · rw [List.map_append]
                  simp
            have hrec := ih _ cr true (hist ++ [(lut + interval_s - f, p, t)]) cr
              hnew (le_refl cr)
            simpa [List.append_assoc] using hrec
          · simpa [gapLoop, hf0, hl0, hp, ht, hcond] using syncInv_mono s hist b cr h hb

/-- A render tick preserves synchronization. -/
theorem syncInv_update (s : AppState) (cr : ℚ) (hist : List (ℚ × ℚ × ℚ)) (b : ℚ)
    (h : SyncInv s hist b) (hb : b ≤ cr) :
    SyncInv (update_plots s cr).1 (hist ++ (update_plots s cr).2.2) cr := by
  have hg := syncInv_gapLoop (gapFuel s cr) s cr false hist b h hb
  simp only [update_plots]
  split_ifs with h1 h2
  · simpa using hg
  · obtain ⟨hch, hd⟩ := hg
    refine ⟨by simpa using hch, ?_⟩
    rcases hd with ⟨ha1, ha2, ha3, ha4, ha5, ha6⟩ | ⟨f, lut, hb1, hb2, hb3, hb4⟩
    · exact Or.inl ⟨ha1, ha2, ha3, ha4, rfl, by simpa using ha6⟩
    · exact Or.inr ⟨f, lut, hb1, hb2, hb3, by simpa using hb4⟩
  · simpa using hg

/-- A run whose event instants strictly increase above the bound preserves
synchronization below some final bound. -/
theorem syncInv_run (es : List Event) :
    ∀ (s : AppState) (hist : List (ℚ × ℚ × ℚ)) (b : ℚ),
      SyncInv s hist b → List.Chain' (· < ·) (b :: es.map eventTime) →
      ∃ b2, SyncInv (runEvents s es).1 (hist ++ (runEvents s es).2) b2 := by
  induction es with
  | nil =>
    intro s hist b h _
    exact ⟨b, by simpa [runEvents]⟩
  | cons e rest ih =>
    intro s hist b h hchain
    simp only [List.map_cons] at hchain
    rw [List.chain'_cons] at hchain
    obtain ⟨hbe, hchain2⟩ := hchain
    cases e with
    | real d cr =>
      have h2 := syncInv_receive s hist b d cr h hbe
      obtain ⟨b2, h3⟩ := ih _ _ cr h2 hchain2
      exact ⟨b2, by simpa [runEvents, stepEvent, List.append_assoc] using h3⟩
    | tick cr =>
      have h2 := syncInv_update s cr hist b h (le_of_lt hbe)
      obtain ⟨b2, h3⟩ := ih _ _ cr h2 hchain2
      exact ⟨b2, by simpa [runEvents, stepEvent, List.append_assoc] using h3⟩

/-- The Boolean strict-increase test agrees with `List.Chain'`. -/
theorem strictIncr_iff_chain (l : List ℚ) :
    strictIncr l = true ↔ List.Chain' (· < ·) l := by
  induction l with
  | nil => simp [strictIncr]
  | cons a t ih =>
    cases t with
    | nil => simp [strictIncr]
    | cons bq u =>
      rw [List.chain'_cons, ← ih]
      simp [strictIncr]

/-- Relative times of the whole insertion history strictly increase whenever
the wall-clock instants of the events do. -/
theorem histTimes_chain (es : List Event) (h : strictIncr (es.map eventTime) = true) :
    List.Chain' (· < ·) ((runEvents initState es).2.map (·.1)) := by
  cases hes : es with
  | nil => simp [runEvents]
  | cons e rest =>
    have hch : List.Chain' (· < ·) ((e :: rest).map eventTime) := by
      rw [← hes]
      exact (strictIncr_iff_chain _).mp h
    have hch2 : List.Chain' (· < ·)
        ((eventTime e - 1) :: (e :: rest).map eventTime) := by
      simp only [List.map_cons]
      rw [List.chain'_cons]
      exact ⟨by linarith, by simpa using hch⟩
    obtain ⟨b2, hs⟩ := syncInv_run (e :: rest) initState [] _ (syncInv_initState _) hch2
    simpa using hs.1

/-- C5: within a session, the relative times of inserted samples — real or
synthetic, across any interleaving of arrivals and ticks whose wall-clock
instants strictly increase — strictly increase, so no two inserted samples
share a timestamp. -/
theorem C5_strictly_increasing_times (es : List Event)
    (h : strictIncr (es.map eventTime) = true) :
    List.Chain' (· < ·) ((runEvents initState es).2.map (·.1)) ∧
    List.Pairwise (· ≠ ·) ((runEvents initState es).2.map (·.1)) := by
  have hc := histTimes_chain es h
  refine ⟨hc, ?_⟩
  have hp := List.chain'_iff_pairwise.mp hc
  exact hp.imp ne_of_lt

/-- C2: ring invariant.  After at least `MAX_POINTS` insertions (real or
synthetic) in a run with strictly increasing wall-clock instants, the
snapshot built by the render step — array entries
`[data_index % N .. N)` followed by `[0 .. data_index % N)` — is exactly the
last `MAX_POINTS` inserted samples in insertion order (no duplicates, no
gaps), with strictly increasing relative times. -/
theorem C2_ring_invariant (es : List Event)
    (hinc : strictIncr (es.map eventTime) = true)
    (hk : MAX_POINTS ≤ (runEvents initState es).2.length) :
    snapshotOf (runEvents initState es).1 =
      (((runEvents initState es).2.drop
          ((runEvents initState es).2.length - MAX_POINTS)).map (·.1),
       ((runEvents initState es).2.drop
          ((runEvents initState es).2.length - MAX_POINTS)).map (·.2.1),
       ((runEvents initState es).2.drop
          ((runEvents initState es).2.length - MAX_POINTS)).map (·.2.2)) ∧
    List.Chain' (· < ·)
      (((runEvents initState es).2.drop
          ((runEvents initState es).2.length - MAX_POINTS)).map (·.1)) := by
  have hring := ringInv_run es initState [] ringInv_init
  simp only [List.nil_append] at hring
  constructor
  · exact snapshotOf_full _ _ hring hk
  · have hc := histTimes_chain es hinc
    have hp := List.chain'_iff_pairwise.mp hc
    have hp2 : List.Pairwise (· < ·)
        (((runEvents initState es).2.map (·.1)).drop
          ((runEvents initState es).2.length - MAX_POINTS)) :=
      hp.sublist (List.drop_sublist _ _)
    rw [List.map_drop]
    exact List.chain'_iff_pairwise.mpr hp2

/-- A tick on a state that never received a sample does nothing and draws
nothing. -/
theorem quiescent_tick (s : AppState) (cr : ℚ)
    (hl : s.last_update_time = none) (hd : s.plot_dirty = false) :
    update_plots s cr = (s, none, []) := by
  have hfuel : gapFuel s cr = 0 := by simp [gapFuel, hl]
  simp [update_plots, hfuel, gapLoop, hd]

/-- A run that inserted nothing left the state untouched. -/
theorem run_log_nil (es : List Event) :
    ∀ s : AppState, s.last_update_time = none → s.plot_dirty = false →
      (runEvents s es).2 = [] → (runEvents s es).1 = s := by
  induction es with
  | nil => intro s _ _ _; rfl
  | cons e rest ih =>
    intro s hl hd hlog
    cases e with
    | real d cr =>
      exfalso
      simp [runEvents, stepEvent] at hlog
    | tick cr =>
      have ht := quiescent_tick s cr hl hd
      simp only [runEvents, stepEvent, ht] at hlog ⊢
      exact ih s hl hd (by simpa using hlog)

/-- C6: pre-fill behavior.  With fewer than `MAX_POINTS` insertions the
snapshot is exactly the whole insertion history in insertion order, and with
zero insertions the render step draws nothing. -/
theorem C6_prefill (es : List Event) (cr : ℚ)
    (hk : (runEvents initState es).2.length < MAX_POINTS) :
    snapshotOf (runEvents initState es).1 =
      ((runEvents initState es).2.map (·.1),
       (runEvents initState es).2.map (·.2.1),
       (runEvents initState es).2.map (·.2.2)) ∧
    ((runEvents initState es).2 = [] →
      (update_plots (runEvents initState es).1 cr).2.1 = none) := by
  have hring := ringInv_run es initState [] ringInv_init
  simp only [List.nil_append] at hring
  constructor
  · exact snapshotOf_prefill _ _ hring hk
  · intro hnil
    rw [run_log_nil es initState rfl rfl hnil]
    rw [quiescent_tick initState cr rfl rfl]

/-- A render tick never changes the anchor or the last-value caches. -/
theorem update_plots_preserves (s : AppState) (cr : ℚ) :
    (update_plots s cr).1.first_data_time = s.first_data_time ∧
    (update_plots s cr).1.last_p = s.last_p ∧
    (update_plots s cr).1.last_t = s.last_t := by
  have hg := gapLoop_preserves (gapFuel s cr) s cr false
  simp only [update_plots]
  split_ifs with h1 h2
  · exact ⟨hg.1, hg.2.1, hg.2.2.1⟩
  · exact ⟨hg.1, hg.2.1, hg.2.2.1⟩
  · exact ⟨hg.1, hg.2.1, hg.2.2.1⟩

/-- C4 (amended): real insertion sets the persistent dirty flag; the gap loop
leaves the persistent flag untouched (synthetic insertions instead raise the
tick-local `added_dummy` flag); a tick in which no insertion occurred since
the last render (flag clear and loop idle) requests no redraw and leaves the
state unchanged; and the flag transitions to clear only on a tick that
produced a snapshot. -/
theorem C4_dirty_flag :
    (∀ (s : AppState) (d : Sample) (cr : ℚ), (receive_data s d cr).plot_dirty = true) ∧
    (∀ (fuel : ℕ) (s : AppState) (cr : ℚ) (ad : Bool),
      (gapLoop fuel s cr ad).1.plot_dirty = s.plot_dirty) ∧
    (∀ (s : AppState) (cr : ℚ), s.plot_dirty = false →
      (gapLoop (gapFuel s cr) s cr false).2.2 = [] →
      (update_plots s cr).2.1 = none ∧ (update_plots s cr).1 = s) ∧
    (∀ (s : AppState) (cr : ℚ), (update_plots s cr).1.plot_dirty = false →
      s.plot_dirty = false ∨ (update_plots s cr).2.1 ≠ none) := by
  refine ⟨?_, ?_, ?_, ?_⟩
  · intro s d cr
    rfl
  · intro fuel s cr ad
    exact (gapLoop_preserves fuel s cr ad).2.2.2
  · intro s cr hd hlog
    obtain ⟨hst, had⟩ := gapLoop_log_nil (gapFuel s cr) s cr false hlog
    constructor
    · simp [update_plots, hst, had, hd]
    · simp [update_plots, hst, had, hd]
  · intro s cr hdf
    by_cases hd : s.plot_dirty = false
    · exact Or.inl hd
    · right
      have hdirty : (gapLoop (gapFuel s cr) s cr false).1.plot_dirty = true := by
        rw [(gapLoop_preserves _ _ _ _).2.2.2]
        simpa using hd
      simp only [update_plots, hdirty, Bool.true_or, if_pos] at hdf ⊢
      by_cases hz : min (gapLoop (gapFuel s cr) s cr false).1.data_index MAX_POINTS = 0
      · rw [if_pos hz] at hdf
        rw [hdirty] at hdf
        exact absurd hdf (by simp)
      · rw [if_neg hz] at hdf ⊢
        simp

/-- C4 counterexample: a tick that performs a synthetic insertion (here the
state after one real sample at time `0`, ticked at time `0.12`) leaves the
store's `plot_dirty` flag `false`: the data index advanced by one, but no
assignment to the flag happened — contrary to the claim that every synthetic
insertion sets the dirty flag. -/
theorem C4_synthetic_insert_leaves_flag_clear :
    (gapLoop (gapFuel { oneSampleState with plot_dirty := false } (12/100))
        { oneSampleState with plot_dirty := false } (12/100) false).1.data_index =
      { oneSampleState with plot_dirty := false }.data_index + 1 ∧
    (gapLoop (gapFuel { oneSampleState with plot_dirty := false } (12/100))
        { oneSampleState with plot_dirty := false } (12/100) false).1.plot_dirty =
      false := by
  constructor
  · with_unfolding_all decide
  · with_unfolding_all decide

/-- C9: the gap-synthesis loop never modifies the last-known-value cache or
the anchor; a render tick never does either; and across any run the cache
always holds the pressure/temperature of the most recent real sample (or the
initial value when no real sample was ever processed). -/
theorem C9_lastvalue_frame :
    (∀ (fuel : ℕ) (s : AppState) (cr : ℚ) (ad : Bool),
      (gapLoop fuel s cr ad).1.last_p = s.last_p ∧
      (gapLoop fuel s cr ad).1.last_t = s.last_t ∧
      (gapLoop fuel s cr ad).1.first_data_time = s.first_data_time) ∧
    (∀ (s : AppState) (cr : ℚ),
      (update_plots s cr).1.last_p = s.last_p ∧
      (update_plots s cr).1.last_t = s.last_t) ∧
    (∀ (es : List Event) (s : AppState),
      (runEvents s es).1.last_p =
        (match lastReal es with | some d => some d.P | none => s.last_p) ∧
      (runEvents s es).1.last_t =
        (match lastReal es with | some d => some d.T | none => s.last_t)) := by
  refine ⟨?_, ?_, ?_⟩
  · intro fuel s cr ad
    have h := gapLoop_preserves fuel s cr ad
    exact ⟨h.2.1, h.2.2.1, h.1⟩
  · intro s cr
    have h := update_plots_preserves s cr
    exact ⟨h.2.1, h.2.2⟩
  · intro es
    induction es with
    | nil => intro s; exact ⟨rfl, rfl⟩
    | cons e rest ih =>
      intro s
      cases e with
      | real d cr =>
        have h2 := ih (receive_data s d cr)
        simp only [runEvents, stepEvent, lastReal]
        cases hlr : lastReal rest with
        | some d2 =>
          rw [hlr] at h2
          exact ⟨h2.1, h2.2⟩
        | none =>
          rw [hlr] at h2
          rw [h2.1, h2.2]
          exact ⟨rfl, rfl⟩
      | tick cr =>
        have h2 := ih (update_plots s cr).1
        simp only [runEvents, stepEvent, lastReal]
        cases hlr : lastReal rest with
        | some d2 =>
          rw [hlr] at h2
          exact ⟨h2.1, h2.2⟩
        | none =>
          rw [hlr] at h2
          rw [h2.1, h2.2]
          have h3 := update_plots_preserves s cr
          exact ⟨h3.2.1, h3.2.2⟩

/-- The anchor after a run: unchanged if it was already set, otherwise set to
the instant of the run's first real sample. -/
theorem first_data_run (es : List Event) :
    ∀ s : AppState,
      (runEvents s es).1.first_data_time =
        (match s.first_data_time with
         | some f => some f
         | none => firstReal es) := by
  induction es with
  | nil =>
    intro s
    cases hf : s.first_data_time <;> simp [runEvents, firstReal, hf]
  | cons e rest ih =>
    intro s
    cases e with
    | real d cr =>
      have h2 := ih (receive_data s d cr)
      simp only [runEvents, stepEvent]
      cases hf : s.first_data_time with
      | none =>
        rw [h2]
        simp [receive_data, hf, firstReal]
      | some f =>
        rw [h2]
        simp [receive_data, hf, firstReal]
    | tick cr =>
      have h2 := ih (update_plots s cr).1
      simp only [runEvents, stepEvent]
      rw [h2, (update_plots_preserves s cr).1]
      cases hf : s.first_data_time <;> simp [firstReal, hf]

/-- C10: the relative-time anchor `first_data_time` is written exactly once —
on the first real sample, when it goes from `None` to that arrival instant —
and is modified by no later real insertion, synthetic insertion, or render
tick; a real insertion on a state with anchor `f` logs relative time
`cr - f` against that fixed anchor. -/
theorem C10_anchor_write_once :
    (∀ (s : AppState) (d : Sample) (cr : ℚ), s.first_data_time = none →
      (receive_data s d cr).first_data_time = some cr) ∧
    (∀ (s : AppState) (d : Sample) (cr f : ℚ), s.first_data_time = some f →
      (receive_data s d cr).first_data_time = some f) ∧
    (∀ (fuel : ℕ) (s : AppState) (cr : ℚ) (ad : Bool),
      (gapLoop fuel s cr ad).1.first_data_time = s.first_data_time) ∧
    (∀ (s : AppState) (cr : ℚ),
      (update_plots s cr).1.first_data_time = s.first_data_time) ∧
    (∀ (s : AppState) (d : Sample) (cr f : ℚ), s.first_data_time = some f →
      (stepEvent s (Event.real d cr)).2 = [(cr - f, d.P, d.T)]) ∧
    (∀ es : List Event, (runEvents initState es).1.first_data_time = firstReal es) := by
  refine ⟨?_, ?_, ?_, ?_, ?_, ?_⟩
  · intro s d cr hf
    simp [receive_data, hf]
  · intro s d cr f hf
    simp [receive_data, hf]
  · intro fuel s cr ad
    exact (gapLoop_preserves fuel s cr ad).1
  · intro s cr
    exact (update_plots_preserves s cr).1
  · intro s d cr f hf
    simp [stepEvent, hf]
  · intro es
    rw [first_data_run es initState]
    rfl

/-- After a `SerialException`, the read loop stops: it consumes nothing
further, emits exactly the samples of the error-free prefix, clears
`running`, and leaves the connection state untouched. -/
theorem readLoop_after_error (pre : List ReadResult) :
    ∀ (s : ReaderState) (post : List ReadResult),
      ReadResult.serialError ∉ pre →
      readLoop s (pre ++ ReadResult.serialError :: post) =
        ({ s with running := false }, (readLoop s pre).2) := by
  induction pre with
  | nil =>
    intro s post _
    rfl
  | cons r pre ih =>
    intro s post hni
    have hr : r ≠ ReadResult.serialError := by
      intro h
      exact hni (h ▸ List.mem_cons_self _ _)
    have hni2 : ReadResult.serialError ∉ pre := fun h => hni (List.mem_cons_of_mem _ h)
    cases r with
    | line l =>
      by_cases he : (stripChars l).isEmpty
      · simp [readLoop, he, ih s post hni2]
      · cases hp : parse_data (stripChars l) with
        | some d => simp [readLoop, he, hp, ih s post hni2]
        | none => simp [readLoop, he, hp, ih s post hni2]
    | serialError => exact absurd rfl hr
    | otherError =>
      simp only [List.cons_append, readLoop]
      exact ih s post hni2

/-- C7 (amended): a mid-stream I/O error is terminal for the reader — the
loop exits, never retries, and emits no sample after the error, even if
further lines arrive — but the error path itself does not release the
connection; only `stop` clears `running` and closes the port. -/
theorem C7_failstop :
    (∀ (s : ReaderState) (pre post : List ReadResult),
      s.running = true → ReadResult.serialError ∉ pre →
      runReader s (pre ++ ReadResult.serialError :: post) =
        ({ s with running := false }, (runReader s pre).2)) ∧
    (∀ s : ReaderState, (stopReader s).running = false ∧ (stopReader s).ser_open = false) := by
  constructor
  · intro s pre post hrun hni
    simp only [runReader, hrun, if_pos]
    exact readLoop_after_error pre s post hni
  · intro s
    exact ⟨rfl, rfl⟩

/-- C7 counterexample: a `SerialException` with a perfectly good line behind
it.  The loop stops and the line is never emitted, but the serial connection
remains open (`ser_open = true`) — the error path does not release it,
contrary to the claim; the line itself does parse, showing data was
dropped. -/
theorem C7_error_leaves_port_open :
    (runReader ⟨true, true⟩
        [ReadResult.serialError, ReadResult.line exampleLine]).1.ser_open = true ∧
    (runReader ⟨true, true⟩
        [ReadResult.serialError, ReadResult.line exampleLine]).2 = [] ∧
    parse_data (stripChars exampleLine) = some exampleSample := by
  refine ⟨rfl, rfl, ?_⟩
  with_unfolding_all decide

/-- C8: severity classification of the system-state string: critical exactly
when a critical keyword occurs as a substring (checked first), else warning
exactly when a warning keyword occurs, else nominal; and the string
`Operando Normal` classifies as nominal. -/
theorem C8_severity_classification :
    (∀ estado : List Char,
      (classifyEstado estado = Severity.critical ↔
        criticalWords.any (fun w => containsSub w estado) = true) ∧
      (classifyEstado estado = Severity.warning ↔
        (criticalWords.any (fun w => containsSub w estado) = false ∧
         warningWords.any (fun w => containsSub w estado) = true)) ∧
      (classifyEstado estado = Severity.nominal ↔
        (criticalWords.any (fun w => containsSub w estado) = false ∧
         warningWords.any (fun w => containsSub w estado) = false))) ∧
    classifyEstado ("Operando Normal".data) = Severity.nominal := by
  constructor
  · intro estado
    unfold classifyEstado
    by_cases hc : criticalWords.any (fun w => containsSub w estado) = true
    · simp [hc]
    · have hc2 : criticalWords.any (fun w => containsSub w estado) = false := by
        simpa using hc
      by_cases hw : warningWords.any (fun w => containsSub w estado) = true
      · simp [hc2, hw]
      · have hw2 : warningWords.any (fun w => containsSub w estado) = false := by
          simpa using hw
        simp [hc2, hw2]
  · with_unfolding_all decide

example : pyFloat? ['3', '0', '0', '.', '5'] = some (300.5 : ℚ) := by with_unfolding_all decide
example : pyFloat? ['-', '.', '5'] = some (-(1/2) : ℚ) := by with_unfolding_all decide
example : pyFloat? ['1', '.', '2', '.', '3'] = none := by decide
example : pyFloat? ['-'] = none := by decide
example : pyFloat? ['5', '.'] = some (5 : ℚ) := by with_unfolding_all decide
example :
    parse_data ("P:300.5,T:150.2,MV:45.0,SH:10.0,F:A,M:AUTO,ESD:Normal," ++
      "ESTADO:Operando Normal,RELIEF:Cerrada,PURGE:Cerrada").data =
    some ⟨300.5, 150.2, 45, 10, ['A'], "AUTO".data, "Normal".data,
      "Operando Normal".data, "Cerrada".data, "Cerrada".data⟩ := by with_unfolding_all decide


/-! ## Witnesses: each claim theorem with hypotheses, applied at a concrete
input with every hypothesis discharged -/

/-- C1 witness: the round-trip direction on the specification's example line,
and the soundness direction on the same accepted line. -/
theorem C1_witness :
    parse_data (mkLine exampleFields) =
      some ⟨300.5, 150.2, 45, 10, exampleFields.f, exampleFields.m,
        exampleFields.esd, exampleFields.estado, exampleFields.relief,
        exampleFields.purge⟩ ∧
    (∃ (pre post : List Char) (L : LineFields),
      exampleLine = pre ++ mkLine L ++ post ∧ WFText L ∧
      pyFloat? L.p = some exampleSample.P ∧ pyFloat? L.t = some exampleSample.T ∧
      pyFloat? L.mv = some exampleSample.MV ∧ pyFloat? L.sh = some exampleSample.SH ∧
      exampleSample.F = L.f ∧ exampleSample.M = L.m ∧ exampleSample.ESD = L.esd ∧
      exampleSample.ESTADO = L.estado ∧ exampleSample.RELIEF = L.relief ∧
      exampleSample.PURGE = L.purge) := by
  refine ⟨C1_parser_roundtrip.1 exampleFields 300.5 150.2 45 10
      (by unfold WFText; decide) ?_ ?_ ?_ ?_,
    C1_parser_roundtrip.2 exampleLine exampleSample ?_⟩
  · with_unfolding_all decide
  · with_unfolding_all decide
  · with_unfolding_all decide
  · with_unfolding_all decide
  · with_unfolding_all decide

/-- C2 witness: a run of exactly `MAX_POINTS` real arrivals at instants
`0, 1, …, 199`, with both hypotheses decided. -/
theorem C2_witness :
    strictIncr (fillRun.map eventTime) = true ∧
    MAX_POINTS ≤ (runEvents initState fillRun).2.length ∧
    (snapshotOf (runEvents initState fillRun).1 =
      (((runEvents initState fillRun).2.drop
          ((runEvents initState fillRun).2.length - MAX_POINTS)).map (·.1),
       ((runEvents initState fillRun).2.drop
          ((runEvents initState fillRun).2.length - MAX_POINTS)).map (·.2.1),
       ((runEvents initState fillRun).2.drop
          ((runEvents initState fillRun).2.length - MAX_POINTS)).map (·.2.2)) ∧
     List.Chain' (· < ·)
      (((runEvents initState fillRun).2.drop
          ((runEvents initState fillRun).2.length - MAX_POINTS)).map (·.1))) := by
  have h1 : strictIncr (fillRun.map eventTime) = true := by
    with_unfolding_all decide
  have h2 : MAX_POINTS ≤ (runEvents initState fillRun).2.length := by
    with_unfolding_all decide
  exact ⟨h1, h2, C2_ring_invariant fillRun h1 h2⟩

/-- C3 witness: after a real sample at time `0` held as `(1, 2)`, a tick at
`0.35` — three and a half intervals of silence — inserts exactly three
synthetic samples at relative times `0.1`, `0.2`, `0.3` holding `(1, 2)`. -/
theorem C3_witness :
    ((0 : ℚ) + ((3 : ℕ) : ℚ) * interval_s ≤ 35/100 ∧
     (35/100 : ℚ) < 0 + (((3 : ℕ) : ℚ) + 1) * interval_s) ∧
    ((gapLoop (gapFuel oneSampleState (35/100)) oneSampleState (35/100) false).2.2 =
        (List.range 3).map
          (fun (i : ℕ) => (((0 : ℚ) - 0) + ((i : ℚ) + 1) * interval_s, 1, 2)) ∧
     (gapLoop (gapFuel oneSampleState (35/100)) oneSampleState
          (35/100) false).1.last_update_time = some (0 + ((3 : ℕ) : ℚ) * interval_s) ∧
     (gapLoop (gapFuel oneSampleState (35/100)) oneSampleState
          (35/100) false).1.data_index = oneSampleState.data_index + 3 ∧
     (gapLoop (gapFuel oneSampleState (35/100)) oneSampleState
          (35/100) false).1.last_p = some 1 ∧
     (gapLoop (gapFuel oneSampleState (35/100)) oneSampleState
          (35/100) false).1.last_t = some 2) := by
  have hyp1 : (0 : ℚ) + ((3 : ℕ) : ℚ) * interval_s ≤ 35/100 := by
    norm_num [interval_s, DATA_COLLECTION_INTERVAL_MS]
  have hyp2 : (35/100 : ℚ) < 0 + (((3 : ℕ) : ℚ) + 1) * interval_s := by
    norm_num [interval_s, DATA_COLLECTION_INTERVAL_MS]
  exact ⟨⟨hyp1, hyp2⟩,
    C3_gap_synthesis oneSampleState (35/100) 0 0 1 2 3 rfl rfl rfl rfl hyp1 hyp2⟩

/-- C4 witness: the four amended conjuncts at concrete inputs — a real
insertion sets the flag; the loop preserves it; an idle tick on the pristine
state redraws nothing and changes nothing; a tick on a dirty state that
cleared the flag did produce a snapshot. -/
theorem C4_witness :
    (receive_data initState sample1 0).plot_dirty = true ∧
    (gapLoop 5 oneSampleState (1/100) false).1.plot_dirty =
      oneSampleState.plot_dirty ∧
    ((update_plots initState 0).2.1 = none ∧ (update_plots initState 0).1 = initState) ∧
    (oneSampleState.plot_dirty = false ∨
      (update_plots oneSampleState (5/100)).2.1 ≠ none) := by
  refine ⟨C4_dirty_flag.1 initState sample1 0,
    C4_dirty_flag.2.1 5 oneSampleState (1/100) false,
    C4_dirty_flag.2.2.1 initState 0 rfl ?_,
    C4_dirty_flag.2.2.2 oneSampleState (5/100) ?_⟩
  · rfl
  · with_unfolding_all decide

/-- C5 witness: a short sample–tick–sample run at instants `0, 0.25, 0.3`. -/
theorem C5_witness :
    strictIncr (shortRun.map eventTime) = true ∧
    (List.Chain' (· < ·) ((runEvents initState shortRun).2.map (·.1)) ∧
     List.Pairwise (· ≠ ·) ((runEvents initState shortRun).2.map (·.1))) := by
  have h1 : strictIncr (shortRun.map eventTime) = true := by
    with_unfolding_all decide
  exact ⟨h1, C5_strictly_increasing_times shortRun h1⟩

/-- C6 witness: one real arrival gives a one-point snapshot equal to the
history; the empty run draws nothing on the next tick. -/
theorem C6_witness :
    ((runEvents initState oneRun).2.length < MAX_POINTS ∧
     snapshotOf (runEvents initState oneRun).1 =
       ((runEvents initState oneRun).2.map (·.1),
        (runEvents initState oneRun).2.map (·.2.1),
        (runEvents initState oneRun).2.map (·.2.2))) ∧
    (update_plots (runEvents initState ([] : List Event)).1 0).2.1 = none := by
  have hk : (runEvents initState oneRun).2.length < MAX_POINTS := by
    with_unfolding_all decide
  exact ⟨⟨hk, (C6_prefill oneRun 0 hk).1⟩,
    (C6_prefill ([] : List Event) 0 (by decide)).2 rfl⟩

/-- C7 witness: a good line, then a serial error, then another good line —
the reader emits only the first line's sample, stops, and keeps the port
open; `stop` closes it. -/
theorem C7_witness :
    runReader ⟨true, true⟩
        ([ReadResult.line exampleLine] ++
          ReadResult.serialError :: [ReadResult.line exampleLine]) =
      ({ (⟨true, true⟩ : ReaderState) with running := false },
       (runReader ⟨true, true⟩ [ReadResult.line exampleLine]).2) ∧
    ((stopReader ⟨true, true⟩).running = false ∧
     (stopReader ⟨true, true⟩).ser_open = false) :=
  ⟨C7_failstop.1 ⟨true, true⟩ [ReadResult.line exampleLine]
      [ReadResult.line exampleLine] rfl (by decide),
   C7_failstop.2 ⟨true, true⟩⟩

/-- C10 witness: the anchor set by the first sample, preserved by the second,
and the relative time of a later insertion computed against it. -/
theorem C10_witness :
    (receive_data initState sample1 0).first_data_time = some 0 ∧
    (receive_data oneSampleState sample1 (1/2)).first_data_time = some 0 ∧
    (stepEvent oneSampleState (Event.real sample1 (1/2))).2 =
      [((1/2 : ℚ) - 0, sample1.P, sample1.T)] :=
  ⟨C10_anchor_write_once.1 initState sample1 0 rfl,
   C10_anchor_write_once.2.1 oneSampleState sample1 (1/2) 0 rfl,
   C10_anchor_write_once.2.2.2.2.1 oneSampleState sample1 (1/2) 0 rfl⟩
